import Mathlib

/-!
Verification development for the pill-splitter component
(`src/src/PillSplitter.tsx`).

The component state and its four pointer handlers (`handleMouseDown`,
`handlePillMouseDown`, `handleMouseMove`, `handleMouseUp`, `handleClick`)
are embedded as pure Lean functions over an explicit `AppState` record.
Pointer coordinates and shape geometry are modelled with `ℚ` (all the
arithmetic the component performs — addition, subtraction, `min`, `max`,
halving — is exact on rationals).  The random colour chosen by
`getRandomColor` is modelled as data carried by the press event, and the
deferred `setTimeout` reset of `hasMoved` is modelled as a separate
`resetMoved` event delivered after the click event, matching the host's
event order (press, moves, release, click, deferred reset).
-/

/-- `MIN_SIZE` from the source. -/
def MIN_SIZE : ℚ := 40

/-- `CORNER_RADIUS` from the source. -/
def CORNER_RADIUS : String := "20px"

/-- The `Pill` record from the source.  `borderRadius` is the optional
CSS corner descriptor string, kept opaque. -/
structure Pill where
  id : Nat
  x : ℚ
  y : ℚ
  width : ℚ
  height : ℚ
  color : String
  borderRadius : Option String
deriving Repr, DecidableEq

/-- `createPill` from the source: builds a pill with the next fresh id and
returns the incremented counter (the source's `nextIdRef.current++`). -/
def createPill (nextId : Nat) (x y width height : ℚ) (color : String)
    (borderRadius : Option String) : Pill × Nat :=
  ({ id := nextId
     x := x
     y := y
     width := width
     height := height
     color := color
     borderRadius := borderRadius }, nextId + 1)

/-- `intersectsV` of `handleClick`: the click's x lies in the pill's
horizontal extent. -/
abbrev intersectsVP (clickX : ℚ) (pill : Pill) : Prop :=
  pill.x ≤ clickX ∧ clickX ≤ pill.x + pill.width

/-- `intersectsH` of `handleClick`: the click's y lies in the pill's
vertical extent. -/
abbrev intersectsHP (clickY : ℚ) (pill : Pill) : Prop :=
  pill.y ≤ clickY ∧ clickY ≤ pill.y + pill.height

/-- `splitX` of `handleClick`: `Math.max(0, Math.min(pill.width, clickX - pill.x))`. -/
def splitXOf (clickX : ℚ) (pill : Pill) : ℚ :=
  max 0 (min pill.width (clickX - pill.x))

/-- `splitY` of `handleClick`: `Math.max(0, Math.min(pill.height, clickY - pill.y))`. -/
def splitYOf (clickY : ℚ) (pill : Pill) : ℚ :=
  max 0 (min pill.height (clickY - pill.y))

/-- `canSplitV` of `handleClick`. -/
abbrev canSplitVP (clickX : ℚ) (pill : Pill) : Prop :=
  intersectsVP clickX pill ∧ 20 ≤ splitXOf clickX pill ∧
    20 ≤ pill.width - splitXOf clickX pill

/-- `canSplitH` of `handleClick`. -/
abbrev canSplitHP (clickY : ℚ) (pill : Pill) : Prop :=
  intersectsHP clickY pill ∧ 20 ≤ splitYOf clickY pill ∧
    20 ≤ pill.height - splitYOf clickY pill

/-- The per-pill body of `handleClick`'s `forEach` loop: the outcome
(four-way split / vertical split / horizontal split / nudge / pass-through)
for one pill, threading the id counter. -/
def splitPill (clickX clickY : ℚ) (nextId : Nat) (pill : Pill) :
    List Pill × Nat :=
  let splitX := splitXOf clickX pill
  let splitY := splitYOf clickY pill
  if canSplitVP clickX pill ∧ canSplitHP clickY pill then
    let (p1, n1) := createPill nextId pill.x pill.y splitX splitY
      pill.color (some "20px 0 0 0")
    let (p2, n2) := createPill n1 (pill.x + splitX) pill.y
      (pill.width - splitX) splitY pill.color (some "0 20px 0 0")
    let (p3, n3) := createPill n2 pill.x (pill.y + splitY) splitX
      (pill.height - splitY) pill.color (some "0 0 0 20px")
    let (p4, n4) := createPill n3 (pill.x + splitX) (pill.y + splitY)
      (pill.width - splitX) (pill.height - splitY) pill.color (some "0 0 20px 0")
    ([p1, p2, p3, p4], n4)
  else if canSplitVP clickX pill then
    let (p1, n1) := createPill nextId pill.x pill.y splitX pill.height
      pill.color (some "20px 0 0 20px")
    let (p2, n2) := createPill n1 (pill.x + splitX) pill.y
      (pill.width - splitX) pill.height pill.color (some "0 20px 20px 0")
    ([p1, p2], n2)
  else if canSplitHP clickY pill then
    let (p1, n1) := createPill nextId pill.x pill.y pill.width splitY
      pill.color (some "20px 20px 0 0")
    let (p2, n2) := createPill n1 pill.x (pill.y + splitY) pill.width
      (pill.height - splitY) pill.color (some "0 0 20px 20px")
    ([p1, p2], n2)
  else if intersectsVP clickX pill ∨ intersectsHP clickY pill then
    let centerX := pill.x + pill.width / 2
    let centerY := pill.y + pill.height / 2
    let newX := if intersectsVP clickX pill then
        (if centerX < clickX then max 0 (clickX - pill.width - 10) else clickX + 10)
      else pill.x
    let newY := if intersectsHP clickY pill then
        (if centerY < clickY then max 0 (clickY - pill.height - 10) else clickY + 10)
      else pill.y
    ([{ pill with
        id := nextId
        x := newX
        y := newY
        borderRadius := some CORNER_RADIUS }], nextId + 1)
  else
    ([pill], nextId)

/-- The whole-store pass of `handleClick`: each pill's outcome is computed
against the same click point and the results concatenated in order,
threading the id counter left to right. -/
def clickPills (clickX clickY : ℚ) : Nat → List Pill → List Pill × Nat
  | nextId, [] => ([], nextId)
  | nextId, pill :: rest =>
    let (out, n1) := splitPill clickX clickY nextId pill
    let (outRest, n2) := clickPills clickX clickY n1 rest
    (out ++ outRest, n2)

/-- The component's mutable state: the `useState` hooks plus the two refs
(`nextIdRef`, `hasMoved`). -/
structure AppState where
  pills : List Pill
  mousePos : ℚ × ℚ
  currentPill : Option Pill
  isDrawing : Bool
  isDragging : Bool
  draggedPill : Option Pill
  dragOffset : ℚ × ℚ
  startPos : ℚ × ℚ
  nextId : Nat
  hasMoved : Bool
deriving Repr, DecidableEq

/-- `handleMouseDown` (press on empty surface area): reset `hasMoved`,
record the start point, create the draft pill at `MIN_SIZE × MIN_SIZE`
with a fresh id.  The random colour is a parameter. -/
def handleMouseDown (x y : ℚ) (color : String) (s : AppState) : AppState :=
  let (pill, n) := createPill s.nextId x y MIN_SIZE MIN_SIZE color (some CORNER_RADIUS)
  { s with
    hasMoved := false
    startPos := (x, y)
    currentPill := some pill
    nextId := n }

/-- `handlePillMouseDown` (press on an existing pill): start dragging that
pill, record the pointer-to-origin offset, reset `hasMoved`. -/
def handlePillMouseDown (x y : ℚ) (pill : Pill) (s : AppState) : AppState :=
  { s with
    hasMoved := false
    isDragging := true
    draggedPill := some pill
    dragOffset := (x - pill.x, y - pill.y) }

/-- `handleMouseMove`.  All reads are from the state as it was at the start
of the handler (React state updates are not visible within the same event),
so the move that crosses the 5-unit threshold sets `isDrawing` but does not
yet resize the draft. -/
def handleMouseMove (x y : ℚ) (s : AppState) : AppState :=
  let crossed : Bool :=
    s.currentPill.isSome && !s.isDrawing &&
      (decide (5 < abs (x - s.startPos.1)) || decide (5 < abs (y - s.startPos.2)))
  let movedByDrag : Bool := s.isDragging && s.draggedPill.isSome
  let currentPill' : Option Pill :=
    if s.isDrawing && s.currentPill.isSome then
      s.currentPill.map fun prev =>
        { prev with
          x := min s.startPos.1 x
          y := min s.startPos.2 y
          width := max (abs (x - s.startPos.1)) MIN_SIZE
          height := max (abs (y - s.startPos.2)) MIN_SIZE }
    else s.currentPill
  let pills' : List Pill :=
    match s.draggedPill with
    | some dragged =>
      if s.isDragging then
        s.pills.map fun pill =>
          if pill.id = dragged.id then
            { pill with
              x := max 0 (x - s.dragOffset.1)
              y := max 0 (y - s.dragOffset.2) }
          else pill
      else s.pills
    | none => s.pills
  { s with
    mousePos := (x, y)
    isDrawing := s.isDrawing || crossed
    hasMoved := s.hasMoved || crossed || movedByDrag
    currentPill := currentPill'
    pills := pills' }

/-- `handleMouseUp`: commit the draft if a draw was in progress, then clear
the draw/drag tracking.  The `setTimeout` reset of `hasMoved` is delivered
later as the separate `resetMoved` event. -/
def handleMouseUp (s : AppState) : AppState :=
  let pills' :=
    match s.currentPill with
    | some cp => if s.isDrawing then s.pills ++ [cp] else s.pills
    | none => s.pills
  { s with
    pills := pills'
    isDrawing := false
    currentPill := none
    isDragging := false
    draggedPill := none }

/-- `handleClick`: gated by `isDrawing`, `isDragging` and the `hasMoved`
ref; otherwise rebuild the store by the split/nudge pass. -/
def handleClick (clickX clickY : ℚ) (s : AppState) : AppState :=
  if s.isDrawing || s.isDragging || s.hasMoved then s
  else
    let (newPills, n) := clickPills clickX clickY s.nextId s.pills
    { s with pills := newPills, nextId := n }

/-- The pointer-event alphabet delivered by the host, in surface-local
coordinates.  `downEmpty` carries the colour `getRandomColor` picked;
`resetMoved` is the deferred `hasMoved` reset scheduled by `handleMouseUp`. -/
inductive Event where
  | downEmpty (x y : ℚ) (color : String)
  | downPill (x y : ℚ) (pill : Pill)
  | move (x y : ℚ)
  | up
  | click (x y : ℚ)
  | resetMoved
deriving Repr, DecidableEq

/-- One event dispatch. -/
def step : Event → AppState → AppState
  | .downEmpty x y c, s => handleMouseDown x y c s
  | .downPill x y p, s => handlePillMouseDown x y p s
  | .move x y, s => handleMouseMove x y s
  | .up, s => handleMouseUp s
  | .click x y, s => handleClick x y s
  | .resetMoved, s => { s with hasMoved := false }

/-- Run a list of events in host delivery order. -/
def runEvents (es : List Event) (s : AppState) : AppState :=
  es.foldl (fun t e => step e t) s

/-- The initial component state. -/
def initState : AppState :=
  { pills := []
    mousePos := (0, 0)
    currentPill := none
    isDrawing := false
    isDragging := false
    draggedPill := none
    dragOffset := (0, 0)
    startPos := (0, 0)
    nextId := 0
    hasMoved := false }

/-- A concrete committed pill used in concrete instances: origin (0,0),
size 100 × 100. -/
def pillA : Pill :=
  { id := 0
    x := 0
    y := 0
    width := 100
    height := 100
    color := "#ef4444"
    borderRadius := some CORNER_RADIUS }

/-- A state whose store holds exactly `pillA`. -/
def stateA : AppState :=
  { initState with pills := [pillA], nextId := 1 }

/-- Helper: a list of move events. -/
def moveEvents (ps : List (ℚ × ℚ)) : List Event :=
  ps.map fun q => Event.move q.1 q.2

/-- Helper: a gesture's opening press, on empty surface or on a pill. -/
def gestureStart (px py : ℚ) (c : String) (o : Option Pill) : Event :=
  match o with
  | none => Event.downEmpty px py c
  | some pill => Event.downPill px py pill

/-- A second concrete pill, at origin (50, 50), size 100 × 100. -/
def pillB : Pill :=
  { id := 0
    x := 50
    y := 50
    width := 100
    height := 100
    color := "#3b82f6"
    borderRadius := some CORNER_RADIUS }

/-- A state whose store holds exactly `pillB`. -/
def stateB : AppState := { initState with pills := [pillB], nextId := 1 }

/-- The area of a pill's rectangle. -/
def area (p : Pill) : ℚ := p.width * p.height

/-- Membership of a point in a pill's rectangle, taken half-open on the
right and bottom edges so that adjacent sub-shapes tile without double
counting. -/
def memRect (q : ℚ × ℚ) (p : Pill) : Prop :=
  p.x ≤ q.1 ∧ q.1 < p.x + p.width ∧ p.y ≤ q.2 ∧ q.2 < p.y + p.height

/-- The draft pill (when one exists) is at least `MIN_SIZE` in each
dimension. -/
def draftInv (s : AppState) : Prop :=
  ∀ c, s.currentPill = some c → MIN_SIZE ≤ c.width ∧ MIN_SIZE ≤ c.height

/-- Size invariant of the store: every committed pill is at least 20 (the
split margin) in each dimension, and the draft at least `MIN_SIZE`. -/
def sizeInv (s : AppState) : Prop :=
  (∀ p ∈ s.pills, 20 ≤ p.width ∧ 20 ≤ p.height) ∧ draftInv s

/-- Origin invariant: every committed pill and the draft sit at
non-negative coordinates, and the recorded gesture start point is
non-negative. -/
def originInv (s : AppState) : Prop :=
  (∀ p ∈ s.pills, 0 ≤ p.x ∧ 0 ≤ p.y) ∧
  (∀ c, s.currentPill = some c → 0 ≤ c.x ∧ 0 ≤ c.y) ∧
  0 ≤ s.startPos.1 ∧ 0 ≤ s.startPos.2

/-- The host delivers surface-local coordinates, which are non-negative. -/
def eventCoordsNN : Event → Prop
  | .downEmpty x y _ => 0 ≤ x ∧ 0 ≤ y
  | .downPill x y _ => 0 ≤ x ∧ 0 ≤ y
  | .move x y => 0 ≤ x ∧ 0 ≤ y
  | .up => True
  | .click x y => 0 ≤ x ∧ 0 ≤ y
  | .resetMoved => True

/-- Id invariant: every id in the store and in the draft is below the
counter `nextIdRef.current`. -/
def idInv (s : AppState) : Prop :=
  (∀ p ∈ s.pills, p.id < s.nextId) ∧
  (∀ c, s.currentPill = some c → c.id < s.nextId)

/-! ### Helper lemmas about the per-pill click outcome -/

lemma splitPill_outside (clickX clickY : ℚ) (n : Nat) (p : Pill)
    (hx : clickX < p.x ∨ p.x + p.width < clickX)
    (hy : clickY < p.y ∨ p.y + p.height < clickY) :
    splitPill clickX clickY n p = ([p], n) := by
  have hV : ¬ intersectsVP clickX p := by
    rintro ⟨h1, h2⟩; rcases hx with h | h <;> linarith
  have hH : ¬ intersectsHP clickY p := by
    rintro ⟨h1, h2⟩; rcases hy with h | h <;> linarith
  have h1 : ¬ (canSplitVP clickX p ∧ canSplitHP clickY p) := fun hc => hV hc.1.1
  have h2 : ¬ canSplitVP clickX p := fun hc => hV hc.1
  have h3 : ¬ canSplitHP clickY p := fun hc => hH hc.1
  have h4 : ¬ (intersectsVP clickX p ∨ intersectsHP clickY p) := by
    rintro (h | h)
    · exact hV h
    · exact hH h
  simp only [splitPill]
  rw [if_neg h1, if_neg h2, if_neg h3, if_neg h4]

lemma clickPills_outside (clickX clickY : ℚ) (ps : List Pill) :
    ∀ n : Nat,
      (∀ p ∈ ps, (clickX < p.x ∨ p.x + p.width < clickX) ∧
        (clickY < p.y ∨ p.y + p.height < clickY)) →
      clickPills clickX clickY n ps = (ps, n) := by
  induction ps with
  | nil => intro n _; rfl
  | cons p rest ih =>
    intro n h
    have hp := h p (List.mem_cons_self p rest)
    have hr := ih n fun q hq => h q (List.mem_cons_of_mem p hq)
    simp only [clickPills, splitPill_outside clickX clickY n p hp.1 hp.2, hr]
    rfl

lemma le_clamp_iff (w v : ℚ) :
    20 ≤ max 0 (min w v) ∧ max 0 (min w v) ≤ w - 20 ↔ 20 ≤ v ∧ v ≤ w - 20 := by
  constructor
  · rintro ⟨h1, h2⟩
    have hmin : 20 ≤ min w v := by
      rcases le_max_iff.mp h1 with h | h
      · linarith
      · exact h
    have hv : 20 ≤ v := le_trans hmin (min_le_right w v)
    refine ⟨hv, ?_⟩
    have hmax : max 0 (min w v) = min w v := max_eq_right (by linarith)
    rw [hmax] at h2
    rcases le_or_lt v w with hvw | hvw
    · rwa [min_eq_right hvw] at h2
    · rw [min_eq_left (le_of_lt hvw)] at h2
      linarith
  · rintro ⟨h1, h2⟩
    have hvw : v ≤ w := by linarith
    rw [min_eq_right hvw, max_eq_right (by linarith : (0:ℚ) ≤ v)]
    exact ⟨h1, h2⟩

lemma canSplitV_iff (clickX : ℚ) (p : Pill) :
    canSplitVP clickX p ↔
      20 ≤ splitXOf clickX p ∧ splitXOf clickX p ≤ p.width - 20 := by
  constructor
  · rintro ⟨_, h1, h2⟩
    exact ⟨h1, by linarith⟩
  · rintro ⟨h1, h2⟩
    have hb := (le_clamp_iff p.width (clickX - p.x)).mp (by
      unfold splitXOf at h1 h2
      exact ⟨h1, h2⟩)
    refine ⟨⟨by linarith [hb.1], by linarith [hb.2]⟩, h1, by linarith⟩

lemma canSplitH_iff (clickY : ℚ) (p : Pill) :
    canSplitHP clickY p ↔
      20 ≤ splitYOf clickY p ∧ splitYOf clickY p ≤ p.height - 20 := by
  constructor
  · rintro ⟨_, h1, h2⟩
    exact ⟨h1, by linarith⟩
  · rintro ⟨h1, h2⟩
    have hb := (le_clamp_iff p.height (clickY - p.y)).mp (by
      unfold splitYOf at h1 h2
      exact ⟨h1, h2⟩)
    refine ⟨⟨by linarith [hb.1], by linarith [hb.2]⟩, h1, by linarith⟩

/-! ### C1 -/

/-- C1 (counterexample): the claim "a click strictly outside every shape's
bounds leaves the collection unchanged" is false as stated.  The click
(50, 200) lies strictly below `pillA`'s bounds (its y-extent ends at 100),
yet because 50 lies in the pill's x-band the pill is split vertically into
two pieces. -/
theorem C1_counterexample :
    pillA.y + pillA.height < 200 ∧
    (step (Event.click 50 200) stateA).pills ≠ stateA.pills ∧
    (step (Event.click 50 200) stateA).pills.length = 2 := by
  refine ⟨by norm_num [pillA], ?_, ?_⟩ <;>
    norm_num [step, handleClick, stateA, clickPills, splitPill, pillA, createPill,
      splitXOf, splitYOf, canSplitVP, canSplitHP, intersectsVP, intersectsHP, initState]

/-- C1 (amended): for a click point lying outside BOTH axis bands of every
shape in the store (strictly left/right of its x-extent and strictly
above/below its y-extent), the click event leaves the whole state — in
particular every shape's id, origin, size, color and corner style —
unchanged. -/
theorem C1_outside_identity (clickX clickY : ℚ) (s : AppState)
    (h : ∀ p ∈ s.pills,
      (clickX < p.x ∨ p.x + p.width < clickX) ∧
      (clickY < p.y ∨ p.y + p.height < clickY)) :
    step (Event.click clickX clickY) s = s := by
  show handleClick clickX clickY s = s
  unfold handleClick
  split
  · rfl
  · rw [clickPills_outside clickX clickY s.pills s.nextId h]

theorem C1_witness :
    (∀ p ∈ stateA.pills,
      ((200:ℚ) < p.x ∨ p.x + p.width < 200) ∧
      ((300:ℚ) < p.y ∨ p.y + p.height < 300)) ∧
    step (Event.click 200 300) stateA = stateA :=
  ⟨by norm_num [stateA, pillA, initState],
   C1_outside_identity 200 300 stateA (by norm_num [stateA, pillA, initState])⟩

/-! ### C3 -/

/-- C3: a four-way split of a pill (the outcome emitting four sub-shapes)
occurs if and only if both clamped split coordinates lie in
`[20, dimension - 20]`; and at the boundary, for `pillA` of dimension 100 a
split coordinate of 19 forbids the four-way split while 20 permits it. -/
theorem C3_fourway_iff :
    (∀ (clickX clickY : ℚ) (n : Nat) (p : Pill),
      (splitPill clickX clickY n p).1.length = 4 ↔
        (20 ≤ splitXOf clickX p ∧ splitXOf clickX p ≤ p.width - 20 ∧
         20 ≤ splitYOf clickY p ∧ splitYOf clickY p ≤ p.height - 20)) ∧
    splitXOf 19 pillA = 19 ∧ (splitPill 19 50 1 pillA).1.length ≠ 4 ∧
    splitXOf 20 pillA = 20 ∧ (splitPill 20 50 1 pillA).1.length = 4 := by
  have key : ∀ (clickX clickY : ℚ) (n : Nat) (p : Pill),
      (splitPill clickX clickY n p).1.length = 4 ↔
        (20 ≤ splitXOf clickX p ∧ splitXOf clickX p ≤ p.width - 20 ∧
         20 ≤ splitYOf clickY p ∧ splitYOf clickY p ≤ p.height - 20) := by
    intro clickX clickY n p
    constructor
    · intro hl
      by_cases h4 : canSplitVP clickX p ∧ canSplitHP clickY p
      · have hV := (canSplitV_iff clickX p).mp h4.1
        have hH := (canSplitH_iff clickY p).mp h4.2
        exact ⟨hV.1, hV.2, hH.1, hH.2⟩
      · exfalso
        simp only [splitPill] at hl
        rw [if_neg h4] at hl
        split_ifs at hl <;> simp [createPill] at hl
    · rintro ⟨h1, h2, h3, h4⟩
      have hV := (canSplitV_iff clickX p).mpr ⟨h1, h2⟩
      have hH := (canSplitH_iff clickY p).mpr ⟨h3, h4⟩
      simp only [splitPill]
      rw [if_pos ⟨hV, hH⟩]
      simp [createPill]
  refine ⟨key, ?_, ?_, ?_, ?_⟩
  · norm_num [splitXOf, pillA]
  · rw [Ne, key]
    norm_num [splitXOf, pillA]
  · norm_num [splitXOf, pillA]
  · rw [key]
    norm_num [splitXOf, splitYOf, pillA]

/-! ### C4 -/

/-- C4: when the nudge outcome fires for a pill (the click lies in at least
one of its axis bands but neither split condition holds) and the id counter
is ahead of the pill's id, the outcome is exactly one clone with the same
width, height and colour, the fresh id `n` distinct from the original's,
corner style reset to the uniform default, and, on each intersecting axis,
position `max 0 (click - dimension - 10)` when the centre is left of/above
the click and `click + 10` otherwise; the original id no longer appears. -/
theorem C4_nudge (clickX clickY : ℚ) (n : Nat) (p : Pill)
    (hband : intersectsVP clickX p ∨ intersectsHP clickY p)
    (hnV : ¬ canSplitVP clickX p) (hnH : ¬ canSplitHP clickY p)
    (hfresh : p.id < n) :
    splitPill clickX clickY n p =
      ([{ p with
          id := n
          x := if intersectsVP clickX p then
              (if p.x + p.width / 2 < clickX then max 0 (clickX - p.width - 10)
               else clickX + 10)
            else p.x
          y := if intersectsHP clickY p then
              (if p.y + p.height / 2 < clickY then max 0 (clickY - p.height - 10)
               else clickY + 10)
            else p.y
          borderRadius := some CORNER_RADIUS }], n + 1) ∧
    n ≠ p.id ∧
    p.id ∉ (splitPill clickX clickY n p).1.map Pill.id := by
  have hmain : splitPill clickX clickY n p =
      ([{ p with
          id := n
          x := if intersectsVP clickX p then
              (if p.x + p.width / 2 < clickX then max 0 (clickX - p.width - 10)
               else clickX + 10)
            else p.x
          y := if intersectsHP clickY p then
              (if p.y + p.height / 2 < clickY then max 0 (clickY - p.height - 10)
               else clickY + 10)
            else p.y
          borderRadius := some CORNER_RADIUS }], n + 1) := by
    simp only [splitPill]
    rw [if_neg (fun hc => hnV hc.1), if_neg hnV, if_neg hnH, if_pos hband]
  refine ⟨hmain, Nat.ne_of_gt hfresh, ?_⟩
  rw [hmain]
  simp only [List.map_cons, List.map_nil, List.mem_singleton]
  omega

theorem C4_witness :
    (intersectsVP 5 pillA ∨ intersectsHP 5 pillA) ∧
    ¬ canSplitVP 5 pillA ∧ ¬ canSplitHP 5 pillA ∧ pillA.id < 1 ∧
    (splitPill 5 5 1 pillA =
      ([{ pillA with
          id := 1
          x := if intersectsVP 5 pillA then
              (if pillA.x + pillA.width / 2 < 5 then max 0 (5 - pillA.width - 10)
               else 5 + 10)
            else pillA.x
          y := if intersectsHP 5 pillA then
              (if pillA.y + pillA.height / 2 < 5 then max 0 (5 - pillA.height - 10)
               else 5 + 10)
            else pillA.y
          borderRadius := some CORNER_RADIUS }], 1 + 1) ∧
     1 ≠ pillA.id ∧
     pillA.id ∉ (splitPill 5 5 1 pillA).1.map Pill.id) :=
  ⟨by norm_num [pillA, intersectsVP, intersectsHP],
   by norm_num [pillA, canSplitVP, intersectsVP, splitXOf],
   by norm_num [pillA, canSplitHP, intersectsHP, splitYOf],
   by norm_num [pillA],
   C4_nudge 5 5 1 pillA (by norm_num [pillA, intersectsVP, intersectsHP])
     (by norm_num [pillA, canSplitVP, intersectsVP, splitXOf])
     (by norm_num [pillA, canSplitHP, intersectsHP, splitYOf])
     (by norm_num [pillA])⟩

/-! ### C6 -/

/-- C6: for every two-way or four-way split, the emitted sub-shapes
partition the original rectangle exactly: their areas sum to the original
area, no point lies in two distinct sub-shapes, and the sub-shapes' union
covers exactly the original bounds — all with exact rational arithmetic. -/
theorem C6_split_partition (clickX clickY : ℚ) (n : Nat) (p : Pill)
    (hsplit : canSplitVP clickX p ∨ canSplitHP clickY p) :
    (((splitPill clickX clickY n p).1.map area).sum = area p) ∧
    (∀ q : ℚ × ℚ, ∀ r1 ∈ (splitPill clickX clickY n p).1,
      ∀ r2 ∈ (splitPill clickX clickY n p).1,
      memRect q r1 → memRect q r2 → r1 = r2) ∧
    (∀ q : ℚ × ℚ, memRect q p ↔ ∃ r ∈ (splitPill clickX clickY n p).1, memRect q r) := by
  by_cases hV : canSplitVP clickX p <;> by_cases hH : canSplitHP clickY p
  · -- four-way split
    have ha1 := hV.2.1
    have ha2 := hV.2.2
    have hb1 := hH.2.1
    have hb2 := hH.2.2
    simp only [splitPill]
    rw [if_pos ⟨hV, hH⟩]
    simp only [createPill]
    refine ⟨?_, ?_, ?_⟩
    · simp only [List.map_cons, List.map_nil, List.sum_cons, List.sum_nil, area]
      ring
    · intro q r1 hr1 r2 hr2 hm1 hm2
      simp only [List.mem_cons, List.not_mem_nil, or_false] at hr1 hr2
      rcases hr1 with rfl | rfl | rfl | rfl <;> rcases hr2 with rfl | rfl | rfl | rfl <;>
        first
        | rfl
        | (exfalso
           simp only [memRect] at hm1 hm2
           obtain ⟨a1, a2, a3, a4⟩ := hm1
           obtain ⟨b1, b2, b3, b4⟩ := hm2
           linarith)
    · intro q
      constructor
      · intro hq
        simp only [memRect] at hq
        obtain ⟨h1, h2, h3, h4⟩ := hq
        rcases lt_or_le q.1 (p.x + splitXOf clickX p) with hx | hx <;>
          rcases lt_or_le q.2 (p.y + splitYOf clickY p) with hy | hy
        · refine ⟨_, List.mem_cons_self _ _, ?_⟩
          simp only [memRect]
          exact ⟨by linarith, by linarith, by linarith, by linarith⟩
        · refine ⟨_, List.mem_cons_of_mem _ (List.mem_cons_of_mem _
            (List.mem_cons_self _ _)), ?_⟩
          simp only [memRect]
          exact ⟨by linarith, by linarith, by linarith, by linarith⟩
        · refine ⟨_, List.mem_cons_of_mem _ (List.mem_cons_self _ _), ?_⟩
          simp only [memRect]
          exact ⟨by linarith, by linarith, by linarith, by linarith⟩
        · refine ⟨_, List.mem_cons_of_mem _ (List.mem_cons_of_mem _
            (List.mem_cons_of_mem _ (List.mem_cons_self _ _))), ?_⟩
          simp only [memRect]
          exact ⟨by linarith, by linarith, by linarith, by linarith⟩
      · rintro ⟨r, hr, hm⟩
        simp only [List.mem_cons, List.not_mem_nil, or_false] at hr
        simp only [memRect] at hm ⊢
        rcases hr with rfl | rfl | rfl | rfl <;>
          (obtain ⟨h1, h2, h3, h4⟩ := hm
           dsimp only at h1 h2 h3 h4
           exact ⟨by linarith, by linarith, by linarith, by linarith⟩)
  · -- vertical split only
    have ha1 := hV.2.1
    have ha2 := hV.2.2
    simp only [splitPill]
    rw [if_neg (fun hc => hH hc.2), if_pos hV]
    simp only [createPill]
    refine ⟨?_, ?_, ?_⟩
    · simp only [List.map_cons, List.map_nil, List.sum_cons, List.sum_nil, area]
      ring
    · intro q r1 hr1 r2 hr2 hm1 hm2
      simp only [List.mem_cons, List.not_mem_nil, or_false] at hr1 hr2
      rcases hr1 with rfl | rfl <;> rcases hr2 with rfl | rfl <;>
        first
        | rfl
        | (exfalso
           simp only [memRect] at hm1 hm2
           obtain ⟨a1, a2, a3, a4⟩ := hm1
           obtain ⟨b1, b2, b3, b4⟩ := hm2
           linarith)
    · intro q
      constructor
      · intro hq
        simp only [memRect] at hq
        obtain ⟨h1, h2, h3, h4⟩ := hq
        rcases lt_or_le q.1 (p.x + splitXOf clickX p) with hx | hx
        · refine ⟨_, List.mem_cons_self _ _, ?_⟩
          simp only [memRect]
          exact ⟨by linarith, by linarith, by linarith, by linarith⟩
        · refine ⟨_, List.mem_cons_of_mem _ (List.mem_cons_self _ _), ?_⟩
          simp only [memRect]
          exact ⟨by linarith, by linarith, by linarith, by linarith⟩
      · rintro ⟨r, hr, hm⟩
        simp only [List.mem_cons, List.not_mem_nil, or_false] at hr
        simp only [memRect] at hm ⊢
        rcases hr with rfl | rfl <;>
          (obtain ⟨h1, h2, h3, h4⟩ := hm
           dsimp only at h1 h2 h3 h4
           exact ⟨by linarith, by linarith, by linarith, by linarith⟩)
  · -- horizontal split only
    have hb1 := hH.2.1
    have hb2 := hH.2.2
    simp only [splitPill]
    rw [if_neg (fun hc => hV hc.1), if_neg hV, if_pos hH]
    simp only [createPill]
    refine ⟨?_, ?_, ?_⟩
    · simp only [List.map_cons, List.map_nil, List.sum_cons, List.sum_nil, area]
      ring
    · intro q r1 hr1 r2 hr2 hm1 hm2
      simp only [List.mem_cons, List.not_mem_nil, or_false] at hr1 hr2
      rcases hr1 with rfl | rfl <;> rcases hr2 with rfl | rfl <;>
        first
        | rfl
        | (exfalso
           simp only [memRect] at hm1 hm2
           obtain ⟨a1, a2, a3, a4⟩ := hm1
           obtain ⟨b1, b2, b3, b4⟩ := hm2
           linarith)
    · intro q
      constructor
      · intro hq
        simp only [memRect] at hq
        obtain ⟨h1, h2, h3, h4⟩ := hq
        rcases lt_or_le q.2 (p.y + splitYOf clickY p) with hy | hy
        · refine ⟨_, List.mem_cons_self _ _, ?_⟩
          simp only [memRect]
          exact ⟨by linarith, by linarith, by linarith, by linarith⟩
        · refine ⟨_, List.mem_cons_of_mem _ (List.mem_cons_self _ _), ?_⟩
          simp only [memRect]
          exact ⟨by linarith, by linarith, by linarith, by linarith⟩
      · rintro ⟨r, hr, hm⟩
        simp only [List.mem_cons, List.not_mem_nil, or_false] at hr
        simp only [memRect] at hm ⊢
        rcases hr with rfl | rfl <;>
          (obtain ⟨h1, h2, h3, h4⟩ := hm
           dsimp only at h1 h2 h3 h4
           exact ⟨by linarith, by linarith, by linarith, by linarith⟩)
  · rcases hsplit with h | h
    · exact absurd h hV
    · exact absurd h hH

theorem C6_witness :
    (canSplitVP 50 pillA ∨ canSplitHP 50 pillA) ∧
    ((((splitPill 50 50 1 pillA).1.map area).sum = area pillA) ∧
     (∀ q : ℚ × ℚ, ∀ r1 ∈ (splitPill 50 50 1 pillA).1,
       ∀ r2 ∈ (splitPill 50 50 1 pillA).1,
       memRect q r1 → memRect q r2 → r1 = r2) ∧
     (∀ q : ℚ × ℚ, memRect q pillA ↔ ∃ r ∈ (splitPill 50 50 1 pillA).1, memRect q r)) :=
  ⟨Or.inl (by norm_num [canSplitVP, intersectsVP, splitXOf, pillA]),
   C6_split_partition 50 50 1 pillA
     (Or.inl (by norm_num [canSplitVP, intersectsVP, splitXOf, pillA]))⟩

/-! ### Unfolding and preservation lemmas for the store pass -/

lemma clickPills_cons (clickX clickY : ℚ) (n : Nat) (p : Pill) (rest : List Pill) :
    clickPills clickX clickY n (p :: rest) =
      ((splitPill clickX clickY n p).1 ++
         (clickPills clickX clickY (splitPill clickX clickY n p).2 rest).1,
       (clickPills clickX clickY (splitPill clickX clickY n p).2 rest).2) := by
  cases hsp : splitPill clickX clickY n p with
  | mk out n1 =>
    cases hcp : clickPills clickX clickY n1 rest with
    | mk outRest n2 => simp [clickPills, hsp, hcp]

lemma splitPill_size (clickX clickY : ℚ) (n : Nat) (p : Pill)
    (hw : 20 ≤ p.width) (hh : 20 ≤ p.height) :
    ∀ q ∈ (splitPill clickX clickY n p).1, 20 ≤ q.width ∧ 20 ≤ q.height := by
  intro q hq
  simp only [splitPill, createPill] at hq
  by_cases h1 : canSplitVP clickX p ∧ canSplitHP clickY p
  · rw [if_pos h1] at hq
    obtain ⟨hV, hH⟩ := h1
    simp only [List.mem_cons, List.not_mem_nil, or_false] at hq
    rcases hq with rfl | rfl | rfl | rfl <;>
      exact ⟨by dsimp only; linarith [hV.2.1, hV.2.2, hH.2.1, hH.2.2],
        by dsimp only; linarith [hV.2.1, hV.2.2, hH.2.1, hH.2.2]⟩
  · rw [if_neg h1] at hq
    by_cases h2 : canSplitVP clickX p
    · rw [if_pos h2] at hq
      simp only [List.mem_cons, List.not_mem_nil, or_false] at hq
      rcases hq with rfl | rfl <;>
        exact ⟨by dsimp only; linarith [h2.2.1, h2.2.2],
          by dsimp only; linarith [h2.2.1, h2.2.2]⟩
    · rw [if_neg h2] at hq
      by_cases h3 : canSplitHP clickY p
      · rw [if_pos h3] at hq
        simp only [List.mem_cons, List.not_mem_nil, or_false] at hq
        rcases hq with rfl | rfl <;>
          exact ⟨by dsimp only; linarith [h3.2.1, h3.2.2],
            by dsimp only; linarith [h3.2.1, h3.2.2]⟩
      · rw [if_neg h3] at hq
        by_cases h4 : intersectsVP clickX p ∨ intersectsHP clickY p
        · rw [if_pos h4] at hq
          simp only [List.mem_cons, List.not_mem_nil, or_false] at hq
          subst hq
          exact ⟨hw, hh⟩
        · rw [if_neg h4] at hq
          simp only [List.mem_cons, List.not_mem_nil, or_false] at hq
          subst hq
          exact ⟨hw, hh⟩

lemma clickPills_size (clickX clickY : ℚ) (ps : List Pill) :
    ∀ n : Nat, (∀ p ∈ ps, 20 ≤ p.width ∧ 20 ≤ p.height) →
      ∀ q ∈ (clickPills clickX clickY n ps).1, 20 ≤ q.width ∧ 20 ≤ q.height := by
  induction ps with
  | nil =>
    intro n _ q hq
    simp [clickPills] at hq
  | cons p rest ih =>
    intro n h q hq
    rw [clickPills_cons] at hq
    simp only [List.mem_append] at hq
    rcases hq with hq | hq
    · exact splitPill_size clickX clickY n p (h p (List.mem_cons_self p rest)).1
        (h p (List.mem_cons_self p rest)).2 q hq
    · exact ih (splitPill clickX clickY n p).2
        (fun r hr => h r (List.mem_cons_of_mem p hr)) q hq

lemma draftInv_none (s : AppState) (h : s.currentPill = none) : draftInv s := by
  intro c hc
  rw [h] at hc
  exact Option.noConfusion hc

lemma handleClick_gated (clickX clickY : ℚ) (s : AppState)
    (hg : (s.isDrawing || s.isDragging || s.hasMoved) = true) :
    handleClick clickX clickY s = s := by
  simp [handleClick, hg]

lemma handleClick_not_gated (clickX clickY : ℚ) (s : AppState)
    (hg : ¬ (s.isDrawing || s.isDragging || s.hasMoved) = true) :
    handleClick clickX clickY s =
      { s with
        pills := (clickPills clickX clickY s.nextId s.pills).1
        nextId := (clickPills clickX clickY s.nextId s.pills).2 } := by
  cases hcp : clickPills clickX clickY s.nextId s.pills with
  | mk out n2 => simp [handleClick, hg, hcp]

/-! ### C2 -/

/-- C2 (counterexample): the claim that every committed shape satisfies
`width ≥ 40` is false: starting from a store holding only the 100 × 100
`pillA` (which does satisfy it), a gated-off click at (20, 50) four-way
splits the pill and commits shapes of width 20 < 40. -/
theorem C2_counterexample :
    (∀ p ∈ stateA.pills, 40 ≤ p.width ∧ 40 ≤ p.height) ∧
    (step (Event.click 20 50) stateA).pills.map Pill.width = [20, 80, 20, 80] ∧
    ¬ (∀ p ∈ (step (Event.click 20 50) stateA).pills, 40 ≤ p.width) := by
  refine ⟨by norm_num [stateA, initState, pillA], ?_, ?_⟩ <;>
    norm_num [stateA, initState, pillA, step, handleClick, clickPills, splitPill,
      createPill, splitXOf, splitYOf, canSplitVP, canSplitHP, intersectsVP,
      intersectsHP]

/-- C2 (amended): the invariant preserved by every operation is
`width ≥ 20` and `height ≥ 20` for committed shapes (20 being the split
margin, the smallest dimension a two-way or four-way split can emit)
together with `width ≥ 40` and `height ≥ 40` for the draft; draw-committed
shapes therefore satisfy the 40-bound but split-emitted shapes only the
20-bound. -/
theorem C2_sizeInv_preserved (s : AppState) (e : Event) (h : sizeInv s) :
    sizeInv (step e s) := by
  obtain ⟨hp, hd⟩ := h
  cases e with
  | downEmpty x y c =>
    refine ⟨hp, ?_⟩
    intro d hdd
    simp only [step, handleMouseDown, createPill, Option.some.injEq] at hdd
    subst hdd
    exact ⟨le_refl _, le_refl _⟩
  | downPill x y pl => exact ⟨hp, hd⟩
  | move x y =>
    constructor
    · intro q hq
      simp only [step, handleMouseMove] at hq
      cases hdp : s.draggedPill with
      | none =>
        rw [hdp] at hq
        exact hp q hq
      | some dragged =>
        rw [hdp] at hq
        dsimp only at hq
        by_cases hdr : s.isDragging = true
        · rw [if_pos hdr] at hq
          rw [List.mem_map] at hq
          obtain ⟨p0, hp0, rfl⟩ := hq
          by_cases hid : p0.id = dragged.id
          · rw [if_pos hid]
            exact ⟨(hp p0 hp0).1, (hp p0 hp0).2⟩
          · rw [if_neg hid]
            exact hp p0 hp0
        · rw [if_neg hdr] at hq
          exact hp q hq
    · intro d hdd
      simp only [step, handleMouseMove] at hdd
      by_cases hdc : (s.isDrawing && s.currentPill.isSome) = true
      · rw [if_pos hdc] at hdd
        cases hc : s.currentPill with
        | none =>
          rw [hc] at hdd
          simp at hdd
        | some c0 =>
          rw [hc] at hdd
          simp only [Option.map_some', Option.some.injEq] at hdd
          subst hdd
          exact ⟨le_max_right _ _, le_max_right _ _⟩
      · rw [if_neg hdc] at hdd
        exact hd d hdd
  | up =>
    constructor
    · intro q hq
      simp only [step, handleMouseUp] at hq
      cases hc : s.currentPill with
      | none =>
        rw [hc] at hq
        exact hp q hq
      | some c0 =>
        rw [hc] at hq
        dsimp only at hq
        by_cases hdr : s.isDrawing = true
        · rw [if_pos hdr] at hq
          rw [List.mem_append] at hq
          rcases hq with hq | hq
          · exact hp q hq
          · simp only [List.mem_singleton] at hq
            have hb := hd c0 hc
            unfold MIN_SIZE at hb
            rw [hq]
            exact ⟨by linarith [hb.1], by linarith [hb.2]⟩
        · rw [if_neg hdr] at hq
          exact hp q hq
    · intro d hdd
      simp only [step, handleMouseUp] at hdd
      simp at hdd
  | click cx cy =>
    show sizeInv (handleClick cx cy s)
    by_cases hg : (s.isDrawing || s.isDragging || s.hasMoved) = true
    · rw [handleClick_gated cx cy s hg]
      exact ⟨hp, hd⟩
    · rw [handleClick_not_gated cx cy s hg]
      exact ⟨clickPills_size cx cy s.pills s.nextId hp, hd⟩
  | resetMoved => exact ⟨hp, hd⟩

theorem C2_witness :
    sizeInv stateA ∧ sizeInv (step (Event.click 20 50) stateA) :=
  ⟨⟨by norm_num [stateA, initState, pillA], draftInv_none stateA rfl⟩,
   C2_sizeInv_preserved stateA (Event.click 20 50)
     ⟨by norm_num [stateA, initState, pillA], draftInv_none stateA rfl⟩⟩

lemma splitXOf_nonneg (clickX : ℚ) (p : Pill) : 0 ≤ splitXOf clickX p := by
  unfold splitXOf
  exact le_max_left _ _

lemma splitYOf_nonneg (clickY : ℚ) (p : Pill) : 0 ≤ splitYOf clickY p := by
  unfold splitYOf
  exact le_max_left _ _

lemma splitPill_origin (clickX clickY : ℚ) (n : Nat) (p : Pill)
    (hcx : 0 ≤ clickX) (hcy : 0 ≤ clickY) (hx : 0 ≤ p.x) (hy : 0 ≤ p.y) :
    ∀ q ∈ (splitPill clickX clickY n p).1, 0 ≤ q.x ∧ 0 ≤ q.y := by
  have hsx := splitXOf_nonneg clickX p
  have hsy := splitYOf_nonneg clickY p
  intro q hq
  simp only [splitPill, createPill] at hq
  by_cases h1 : canSplitVP clickX p ∧ canSplitHP clickY p
  · rw [if_pos h1] at hq
    simp only [List.mem_cons, List.not_mem_nil, or_false] at hq
    rcases hq with rfl | rfl | rfl | rfl <;>
      exact ⟨by dsimp only; linarith, by dsimp only; linarith⟩
  · rw [if_neg h1] at hq
    by_cases h2 : canSplitVP clickX p
    · rw [if_pos h2] at hq
      simp only [List.mem_cons, List.not_mem_nil, or_false] at hq
      rcases hq with rfl | rfl <;>
        exact ⟨by dsimp only; linarith, by dsimp only; linarith⟩
    · rw [if_neg h2] at hq
      by_cases h3 : canSplitHP clickY p
      · rw [if_pos h3] at hq
        simp only [List.mem_cons, List.not_mem_nil, or_false] at hq
        rcases hq with rfl | rfl <;>
          exact ⟨by dsimp only; linarith, by dsimp only; linarith⟩
      · rw [if_neg h3] at hq
        by_cases h4 : intersectsVP clickX p ∨ intersectsHP clickY p
        · rw [if_pos h4] at hq
          simp only [List.mem_cons, List.not_mem_nil, or_false] at hq
          subst hq
          constructor <;> dsimp only <;> split_ifs <;>
            first
            | exact hx
            | exact hy
            | exact le_max_left _ _
            | linarith
        · rw [if_neg h4] at hq
          simp only [List.mem_cons, List.not_mem_nil, or_false] at hq
          subst hq
          exact ⟨hx, hy⟩

lemma clickPills_origin (clickX clickY : ℚ) (ps : List Pill)
    (hcx : 0 ≤ clickX) (hcy : 0 ≤ clickY) :
    ∀ n : Nat, (∀ p ∈ ps, 0 ≤ p.x ∧ 0 ≤ p.y) →
      ∀ q ∈ (clickPills clickX clickY n ps).1, 0 ≤ q.x ∧ 0 ≤ q.y := by
  induction ps with
  | nil =>
    intro n _ q hq
    simp [clickPills] at hq
  | cons p rest ih =>
    intro n h q hq
    rw [clickPills_cons] at hq
    simp only [List.mem_append] at hq
    rcases hq with hq | hq
    · exact splitPill_origin clickX clickY n p hcx hcy
        (h p (List.mem_cons_self p rest)).1 (h p (List.mem_cons_self p rest)).2 q hq
    · exact ih (splitPill clickX clickY n p).2
        (fun r hr => h r (List.mem_cons_of_mem p hr)) q hq

/-! ### C8 -/

/-- C8: non-negativity of every shape's origin (committed shapes, the
draft, and the gesture start point) is preserved by every event whose
pointer coordinates are surface-local (non-negative): dragging clamps with
`max 0`, drawing takes a `min` of non-negative points, splits offset the
origin by non-negative split coordinates, and nudges clamp with `max 0` or
move to `click + 10`. -/
theorem C8_origin_preserved (s : AppState) (e : Event) (hc : eventCoordsNN e)
    (h : originInv s) : originInv (step e s) := by
  obtain ⟨hp, hd, hs1, hs2⟩ := h
  cases e with
  | downEmpty x y c =>
    obtain ⟨hx, hy⟩ := hc
    refine ⟨hp, ?_, hx, hy⟩
    intro d hdd
    simp only [step, handleMouseDown, createPill, Option.some.injEq] at hdd
    subst hdd
    exact ⟨hx, hy⟩
  | downPill x y pl => exact ⟨hp, hd, hs1, hs2⟩
  | move x y =>
    obtain ⟨hx, hy⟩ := hc
    refine ⟨?_, ?_, hs1, hs2⟩
    · intro q hq
      simp only [step, handleMouseMove] at hq
      cases hdp : s.draggedPill with
      | none =>
        rw [hdp] at hq
        exact hp q hq
      | some dragged =>
        rw [hdp] at hq
        dsimp only at hq
        by_cases hdr : s.isDragging = true
        · rw [if_pos hdr] at hq
          rw [List.mem_map] at hq
          obtain ⟨p0, hp0, rfl⟩ := hq
          by_cases hid : p0.id = dragged.id
          · rw [if_pos hid]
            exact ⟨le_max_left _ _, le_max_left _ _⟩
          · rw [if_neg hid]
            exact hp p0 hp0
        · rw [if_neg hdr] at hq
          exact hp q hq
    · intro d hdd
      simp only [step, handleMouseMove] at hdd
      by_cases hdc : (s.isDrawing && s.currentPill.isSome) = true
      · rw [if_pos hdc] at hdd
        cases hcc : s.currentPill with
        | none =>
          rw [hcc] at hdd
          simp at hdd
        | some c0 =>
          rw [hcc] at hdd
          simp only [Option.map_some', Option.some.injEq] at hdd
          subst hdd
          exact ⟨le_min hs1 hx, le_min hs2 hy⟩
      · rw [if_neg hdc] at hdd
        exact hd d hdd
  | up =>
    refine ⟨?_, ?_, hs1, hs2⟩
    · intro q hq
      simp only [step, handleMouseUp] at hq
      cases hcc : s.currentPill with
      | none =>
        rw [hcc] at hq
        exact hp q hq
      | some c0 =>
        rw [hcc] at hq
        dsimp only at hq
        by_cases hdr : s.isDrawing = true
        · rw [if_pos hdr] at hq
          rw [List.mem_append] at hq
          rcases hq with hq | hq
          · exact hp q hq
          · simp only [List.mem_singleton] at hq
            rw [hq]
            exact hd c0 hcc
        · rw [if_neg hdr] at hq
          exact hp q hq
    · intro d hdd
      simp only [step, handleMouseUp] at hdd
      simp at hdd
  | click cx cy =>
    obtain ⟨hx, hy⟩ := hc
    show originInv (handleClick cx cy s)
    by_cases hg : (s.isDrawing || s.isDragging || s.hasMoved) = true
    · rw [handleClick_gated cx cy s hg]
      exact ⟨hp, hd, hs1, hs2⟩
    · rw [handleClick_not_gated cx cy s hg]
      exact ⟨clickPills_origin cx cy s.pills hx hy s.nextId hp, hd, hs1, hs2⟩
  | resetMoved => exact ⟨hp, hd, hs1, hs2⟩

theorem C8_witness :
    eventCoordsNN (Event.click 5 5) ∧ originInv stateA ∧
    originInv (step (Event.click 5 5) stateA) := by
  have h0 : originInv stateA := by
    refine ⟨by norm_num [stateA, initState, pillA], ?_, by norm_num [stateA, initState],
      by norm_num [stateA, initState]⟩
    intro c hc
    exact Option.noConfusion hc
  exact ⟨by norm_num [eventCoordsNN], h0,
    C8_origin_preserved stateA (Event.click 5 5) (by norm_num [eventCoordsNN]) h0⟩

lemma splitPill_ids (clickX clickY : ℚ) (n : Nat) (p : Pill) :
    n ≤ (splitPill clickX clickY n p).2 ∧
    ∀ q ∈ (splitPill clickX clickY n p).1,
      q = p ∨ (n ≤ q.id ∧ q.id < (splitPill clickX clickY n p).2) := by
  simp only [splitPill, createPill]
  by_cases h1 : canSplitVP clickX p ∧ canSplitHP clickY p
  · rw [if_pos h1]
    refine ⟨by omega, ?_⟩
    intro q hq
    simp only [List.mem_cons, List.not_mem_nil, or_false] at hq
    rcases hq with rfl | rfl | rfl | rfl <;> right <;> dsimp only <;> omega
  · rw [if_neg h1]
    by_cases h2 : canSplitVP clickX p
    · rw [if_pos h2]
      refine ⟨by omega, ?_⟩
      intro q hq
      simp only [List.mem_cons, List.not_mem_nil, or_false] at hq
      rcases hq with rfl | rfl <;> right <;> dsimp only <;> omega
    · rw [if_neg h2]
      by_cases h3 : canSplitHP clickY p
      · rw [if_pos h3]
        refine ⟨by omega, ?_⟩
        intro q hq
        simp only [List.mem_cons, List.not_mem_nil, or_false] at hq
        rcases hq with rfl | rfl <;> right <;> dsimp only <;> omega
      · rw [if_neg h3]
        by_cases h4 : intersectsVP clickX p ∨ intersectsHP clickY p
        · rw [if_pos h4]
          refine ⟨by omega, ?_⟩
          intro q hq
          simp only [List.mem_cons, List.not_mem_nil, or_false] at hq
          subst hq
          right
          dsimp only
          omega
        · rw [if_neg h4]
          refine ⟨le_refl n, ?_⟩
          intro q hq
          simp only [List.mem_cons, List.not_mem_nil, or_false] at hq
          subst hq
          left
          rfl

lemma clickPills_ids (clickX clickY : ℚ) (ps : List Pill) :
    ∀ n : Nat,
      n ≤ (clickPills clickX clickY n ps).2 ∧
      ∀ q ∈ (clickPills clickX clickY n ps).1,
        q ∈ ps ∨ (n ≤ q.id ∧ q.id < (clickPills clickX clickY n ps).2) := by
  induction ps with
  | nil =>
    intro n
    exact ⟨le_refl n, by simp [clickPills]⟩
  | cons p rest ih =>
    intro n
    rw [clickPills_cons]
    have hsp := splitPill_ids clickX clickY n p
    have hr := ih (splitPill clickX clickY n p).2
    dsimp only
    constructor
    · exact le_trans hsp.1 hr.1
    · intro q hq
      rw [List.mem_append] at hq
      rcases hq with hq | hq
      · rcases hsp.2 q hq with rfl | ⟨h5, h6⟩
        · exact Or.inl (List.mem_cons_self q rest)
        · exact Or.inr ⟨h5, lt_of_lt_of_le h6 hr.1⟩
      · rcases hr.2 q hq with hmem | ⟨h5, h6⟩
        · exact Or.inl (List.mem_cons_of_mem p hmem)
        · exact Or.inr ⟨le_trans hsp.1 h5, h6⟩

/-! ### C9 -/

/-- C9: ids are never reused and the counter is monotone.  Under the id
invariant (all store and draft ids below `nextIdRef.current`), every event
preserves the invariant, never decreases the counter, and every pill of the
new state either carries an id that already existed (in the store or as the
draft's id) or carries a freshly allocated id at least the old counter —
hence strictly greater than every previously allocated id, so no id
reappears after its shape is removed or replaced. -/
theorem C9_ids_fresh (s : AppState) (e : Event) (h : idInv s) :
    idInv (step e s) ∧
    s.nextId ≤ (step e s).nextId ∧
    (∀ p ∈ (step e s).pills,
      p.id ∈ s.pills.map Pill.id ∨
      (∃ c0, s.currentPill = some c0 ∧ p.id = c0.id) ∨
      s.nextId ≤ p.id) ∧
    (∀ c, (step e s).currentPill = some c →
      (∃ c0, s.currentPill = some c0 ∧ c.id = c0.id) ∨ s.nextId ≤ c.id) := by
  obtain ⟨hp, hd⟩ := h
  cases e with
  | downEmpty x y c =>
    refine ⟨⟨?_, ?_⟩, ?_, ?_, ?_⟩
    · intro q hq
      exact Nat.lt_succ_of_lt (hp q hq)
    · intro d hdd
      simp only [step, handleMouseDown, createPill, Option.some.injEq] at hdd
      subst hdd
      exact Nat.lt_succ_self _
    · exact Nat.le_succ _
    · intro q hq
      exact Or.inl (List.mem_map_of_mem Pill.id hq)
    · intro d hdd
      simp only [step, handleMouseDown, createPill, Option.some.injEq] at hdd
      subst hdd
      exact Or.inr (le_refl _)
  | downPill x y pl =>
    refine ⟨⟨hp, hd⟩, le_refl _, ?_, ?_⟩
    · intro q hq
      exact Or.inl (List.mem_map_of_mem Pill.id hq)
    · intro c hc
      exact Or.inl ⟨c, hc, rfl⟩
  | move x y =>
    refine ⟨⟨?_, ?_⟩, le_refl _, ?_, ?_⟩
    · intro q hq
      simp only [step, handleMouseMove] at hq
      cases hdp : s.draggedPill with
      | none =>
        rw [hdp] at hq
        exact hp q hq
      | some dragged =>
        rw [hdp] at hq
        dsimp only at hq
        by_cases hdr : s.isDragging = true
        · rw [if_pos hdr] at hq
          rw [List.mem_map] at hq
          obtain ⟨p0, hp0, rfl⟩ := hq
          by_cases hid : p0.id = dragged.id
          · rw [if_pos hid]
            exact hp p0 hp0
          · rw [if_neg hid]
            exact hp p0 hp0
        · rw [if_neg hdr] at hq
          exact hp q hq
    · intro d hdd
      simp only [step, handleMouseMove] at hdd
      by_cases hdc : (s.isDrawing && s.currentPill.isSome) = true
      · rw [if_pos hdc] at hdd
        cases hcc : s.currentPill with
        | none =>
          rw [hcc] at hdd
          simp at hdd
        | some c0 =>
          rw [hcc] at hdd
          simp only [Option.map_some', Option.some.injEq] at hdd
          subst hdd
          exact hd c0 hcc
      · rw [if_neg hdc] at hdd
        exact hd d hdd
    · intro q hq
      simp only [step, handleMouseMove] at hq
      cases hdp : s.draggedPill with
      | none =>
        rw [hdp] at hq
        exact Or.inl (List.mem_map_of_mem Pill.id hq)
      | some dragged =>
        rw [hdp] at hq
        dsimp only at hq
        by_cases hdr : s.isDragging = true
        · rw [if_pos hdr] at hq
          rw [List.mem_map] at hq
          obtain ⟨p0, hp0, rfl⟩ := hq
          left
          by_cases hid : p0.id = dragged.id
          · rw [if_pos hid]
            dsimp only
            exact List.mem_map_of_mem Pill.id hp0
          · rw [if_neg hid]
            exact List.mem_map_of_mem Pill.id hp0
        · rw [if_neg hdr] at hq
          exact Or.inl (List.mem_map_of_mem Pill.id hq)
    · intro c hc
      simp only [step, handleMouseMove] at hc
      by_cases hdc : (s.isDrawing && s.currentPill.isSome) = true
      · rw [if_pos hdc] at hc
        cases hcc : s.currentPill with
        | none =>
          rw [hcc] at hc
          simp at hc
        | some c0 =>
          rw [hcc] at hc
          simp only [Option.map_some', Option.some.injEq] at hc
          subst hc
          exact Or.inl ⟨c0, rfl, rfl⟩
      · rw [if_neg hdc] at hc
        exact Or.inl ⟨c, hc, rfl⟩
  | up =>
    refine ⟨⟨?_, ?_⟩, le_refl _, ?_, ?_⟩
    · intro q hq
      simp only [step, handleMouseUp] at hq
      cases hcc : s.currentPill with
      | none =>
        rw [hcc] at hq
        exact hp q hq
      | some c0 =>
        rw [hcc] at hq
        dsimp only at hq
        by_cases hdr : s.isDrawing = true
        · rw [if_pos hdr] at hq
          rw [List.mem_append] at hq
          rcases hq with hq | hq
          · exact hp q hq
          · simp only [List.mem_singleton] at hq
            rw [hq]
            exact hd c0 hcc
        · rw [if_neg hdr] at hq
          exact hp q hq
    · intro d hdd
      simp only [step, handleMouseUp] at hdd
      simp at hdd
    · intro q hq
      simp only [step, handleMouseUp] at hq
      cases hcc : s.currentPill with
      | none =>
        rw [hcc] at hq
        exact Or.inl (List.mem_map_of_mem Pill.id hq)
      | some c0 =>
        rw [hcc] at hq
        dsimp only at hq
        by_cases hdr : s.isDrawing = true
        · rw [if_pos hdr] at hq
          rw [List.mem_append] at hq
          rcases hq with hq | hq
          · exact Or.inl (List.mem_map_of_mem Pill.id hq)
          · simp only [List.mem_singleton] at hq
            exact Or.inr (Or.inl ⟨c0, rfl, by rw [hq]⟩)
        · rw [if_neg hdr] at hq
          exact Or.inl (List.mem_map_of_mem Pill.id hq)
    · intro c hc
      simp only [step, handleMouseUp] at hc
      simp at hc
  | click cx cy =>
    simp only [step]
    by_cases hg : (s.isDrawing || s.isDragging || s.hasMoved) = true
    · rw [handleClick_gated cx cy s hg]
      refine ⟨⟨hp, hd⟩, le_refl _, ?_, ?_⟩
      · intro q hq
        exact Or.inl (List.mem_map_of_mem Pill.id hq)
      · intro c hc
        exact Or.inl ⟨c, hc, rfl⟩
    · rw [handleClick_not_gated cx cy s hg]
      have hcp := clickPills_ids cx cy s.pills s.nextId
      refine ⟨⟨?_, ?_⟩, hcp.1, ?_, ?_⟩
      · intro q hq
        rcases hcp.2 q hq with hmem | ⟨h5, h6⟩
        · exact lt_of_lt_of_le (hp q hmem) hcp.1
        · exact h6
      · intro d hdd
        exact lt_of_lt_of_le (hd d hdd) hcp.1
      · intro q hq
        rcases hcp.2 q hq with hmem | ⟨h5, h6⟩
        · exact Or.inl (List.mem_map_of_mem Pill.id hmem)
        · exact Or.inr (Or.inr h5)
      · intro c hc
        exact Or.inl ⟨c, hc, rfl⟩
  | resetMoved =>
    refine ⟨⟨hp, hd⟩, le_refl _, ?_, ?_⟩
    · intro q hq
      exact Or.inl (List.mem_map_of_mem Pill.id hq)
    · intro c hc
      exact Or.inl ⟨c, hc, rfl⟩

theorem C9_witness :
    idInv stateA ∧
    (idInv (step (Event.click 5 5) stateA) ∧
     stateA.nextId ≤ (step (Event.click 5 5) stateA).nextId ∧
     (∀ p ∈ (step (Event.click 5 5) stateA).pills,
       p.id ∈ stateA.pills.map Pill.id ∨
       (∃ c0, stateA.currentPill = some c0 ∧ p.id = c0.id) ∨
       stateA.nextId ≤ p.id) ∧
     (∀ c, (step (Event.click 5 5) stateA).currentPill = some c →
       (∃ c0, stateA.currentPill = some c0 ∧ c.id = c0.id) ∨
       stateA.nextId ≤ c.id)) := by
  have h0 : idInv stateA := by
    refine ⟨by norm_num [stateA, initState, pillA], ?_⟩
    intro c hc
    exact Option.noConfusion hc
  exact ⟨h0, C9_ids_fresh stateA (Event.click 5 5) h0⟩

/-! ### Gesture-level lemmas for the `moved` gate -/

lemma runEvents_append (es1 es2 : List Event) (s : AppState) :
    runEvents (es1 ++ es2) s = runEvents es2 (runEvents es1 s) :=
  List.foldl_append _ _ _ _

lemma move_hasMoved (x y : ℚ) (s : AppState) (h : s.hasMoved = true) :
    (handleMouseMove x y s).hasMoved = true := by
  simp [handleMouseMove, h]

lemma moves_hasMoved (ps : List (ℚ × ℚ)) :
    ∀ s : AppState, s.hasMoved = true →
      (runEvents (moveEvents ps) s).hasMoved = true := by
  induction ps with
  | nil => intro s h; exact h
  | cons q ps ih =>
    intro s h
    show (runEvents (moveEvents ps) (handleMouseMove q.1 q.2 s)).hasMoved = true
    exact ih _ (move_hasMoved q.1 q.2 s h)

lemma move_currentPill_isSome (x y : ℚ) (s : AppState)
    (h : s.currentPill.isSome = true) :
    (handleMouseMove x y s).currentPill.isSome = true := by
  cases hcc : s.currentPill with
  | none =>
    rw [hcc] at h
    simp at h
  | some c0 =>
    simp only [handleMouseMove, hcc]
    split_ifs <;> simp

lemma move_startPos (x y : ℚ) (s : AppState) :
    (handleMouseMove x y s).startPos = s.startPos := rfl

lemma move_drawing_moved (x y : ℚ) (s : AppState)
    (h : s.isDrawing = true → s.hasMoved = true) :
    (handleMouseMove x y s).isDrawing = true →
      (handleMouseMove x y s).hasMoved = true := by
  simp only [handleMouseMove]
  intro hd
  simp only [Bool.or_eq_true] at hd ⊢
  rcases hd with hd | hd
  · exact Or.inl (Or.inl (h hd))
  · exact Or.inl (Or.inr hd)

lemma drawMoves_hasMoved (px py : ℚ) (ps : List (ℚ × ℚ)) :
    ∀ s : AppState,
      s.currentPill.isSome = true →
      s.startPos = (px, py) →
      (s.isDrawing = true → s.hasMoved = true) →
      (∃ q ∈ ps, 5 < abs (q.1 - px) ∨ 5 < abs (q.2 - py)) →
      (runEvents (moveEvents ps) s).hasMoved = true := by
  induction ps with
  | nil =>
    intro s _ _ _ hex
    simp at hex
  | cons q ps ih =>
    intro s hcp hsp hdm hex
    show (runEvents (moveEvents ps) (handleMouseMove q.1 q.2 s)).hasMoved = true
    rcases hex with ⟨r, hr, hthr⟩
    rcases List.mem_cons.mp hr with hqr | hr'
    · rw [hqr] at hthr
      apply moves_hasMoved
      by_cases hdraw : s.isDrawing = true
      · exact move_hasMoved q.1 q.2 s (hdm hdraw)
      · have hb : s.isDrawing = false := by
          cases hsd : s.isDrawing
          · rfl
          · exact absurd hsd hdraw
        simp only [handleMouseMove, hcp, hb, hsp, Bool.not_false, Bool.and_true,
          Bool.true_and, Bool.or_eq_true, decide_eq_true_eq]
        rcases hthr with h | h
        · exact Or.inl (Or.inr (Or.inl h))
        · exact Or.inl (Or.inr (Or.inr h))
    · exact ih _ (move_currentPill_isSome q.1 q.2 s hcp)
        (by rw [move_startPos, hsp]) (move_drawing_moved q.1 q.2 s hdm)
        ⟨r, hr', hthr⟩

lemma up_hasMoved (s : AppState) : (handleMouseUp s).hasMoved = s.hasMoved := rfl

lemma click_noop_of_hasMoved (clickX clickY : ℚ) (s : AppState)
    (h : s.hasMoved = true) :
    handleClick clickX clickY s = s := by
  apply handleClick_gated
  simp [h]

/-! ### C5 -/

/-- C5 (counterexample): a press-move-release-click cycle with nonzero
displacement can still trigger the split algorithm.  Pressing empty
surface at (0, 60), moving 3 units (below the 5-unit threshold, so `moved`
is never set), releasing and clicking at (3, 60) nudges `pillB` (whose
y-band contains 60): the store changes even though the pointer moved. -/
theorem C5_counterexample :
    (0:ℚ) < abs (3 - 0) ∧
    (runEvents [Event.downEmpty 0 60 "c", Event.move 3 60, Event.up,
      Event.click 3 60] stateB).pills ≠ stateB.pills := by
  constructor
  · norm_num
  · norm_num [runEvents, List.foldl, step, handleMouseDown, handleMouseMove,
      handleMouseUp, handleClick, clickPills, splitPill, createPill, splitXOf,
      splitYOf, canSplitVP, canSplitHP, intersectsVP, intersectsHP, stateB, pillB,
      initState, MIN_SIZE, CORNER_RADIUS]

/-- C5 (amended): for every gesture that is a drag with at least one move
event, or a draw (some move exceeds the 5-unit threshold on an axis from
the press point, starting from a non-drawing state), the click signal
delivered after release is a complete no-op: the state after
press-moves-release-click equals the state after press-moves-release. -/
theorem C5_moved_gates_click (s : AppState) (px py clickX clickY : ℚ)
    (c : String) (o : Option Pill) (ps : List (ℚ × ℚ))
    (h : match o with
      | none => s.isDrawing = false ∧
          ∃ q ∈ ps, 5 < abs (q.1 - px) ∨ 5 < abs (q.2 - py)
      | some _ => ps ≠ []) :
    runEvents (gestureStart px py c o ::
      (moveEvents ps ++ [Event.up, Event.click clickX clickY])) s =
    runEvents (gestureStart px py c o :: (moveEvents ps ++ [Event.up])) s := by
  have key : (runEvents (moveEvents ps) (step (gestureStart px py c o) s)).hasMoved
      = true := by
    cases o with
    | none =>
      obtain ⟨hnd, hex⟩ := h
      apply drawMoves_hasMoved px py ps
      · simp [step, gestureStart, handleMouseDown, createPill]
      · rfl
      · intro hdr
        rw [show (step (gestureStart px py c none) s).isDrawing = s.isDrawing
          from rfl, hnd] at hdr
        exact absurd hdr (by simp)
      · exact hex
    | some pill =>
      cases ps with
      | nil => exact absurd rfl h
      | cons q ps' =>
        show (runEvents (moveEvents ps')
          (handleMouseMove q.1 q.2 (handlePillMouseDown px py pill s))).hasMoved = true
        apply moves_hasMoved
        simp [handleMouseMove, handlePillMouseDown]
  show runEvents (moveEvents ps ++ [Event.up, Event.click clickX clickY])
      (step (gestureStart px py c o) s) =
    runEvents (moveEvents ps ++ [Event.up]) (step (gestureStart px py c o) s)
  rw [runEvents_append, runEvents_append]
  show handleClick clickX clickY
      (handleMouseUp (runEvents (moveEvents ps) (step (gestureStart px py c o) s))) =
    handleMouseUp (runEvents (moveEvents ps) (step (gestureStart px py c o) s))
  exact click_noop_of_hasMoved clickX clickY _ key

theorem C5_witness :
    (match (some pillB : Option Pill) with
      | none => initState.isDrawing = false ∧
          ∃ q ∈ [((51:ℚ), (51:ℚ))], 5 < abs (q.1 - 51) ∨ 5 < abs (q.2 - 51)
      | some _ => [((51:ℚ), (51:ℚ))] ≠ ([] : List (ℚ × ℚ))) ∧
    runEvents (gestureStart 51 51 "c" (some pillB) ::
      (moveEvents [((51:ℚ), (51:ℚ))] ++ [Event.up, Event.click 51 51])) initState =
    runEvents (gestureStart 51 51 "c" (some pillB) ::
      (moveEvents [((51:ℚ), (51:ℚ))] ++ [Event.up])) initState :=
  ⟨by simp, C5_moved_gates_click initState 51 51 51 51 "c" (some pillB)
    [(51, 51)] (by simp)⟩

/-! ### C7 -/

lemma draftInv_step (s : AppState) (e : Event) (h : draftInv s) :
    draftInv (step e s) := by
  cases e with
  | downEmpty x y c =>
    intro d hdd
    simp only [step, handleMouseDown, createPill, Option.some.injEq] at hdd
    subst hdd
    exact ⟨le_refl _, le_refl _⟩
  | downPill x y pl => exact h
  | move x y =>
    intro d hdd
    simp only [step, handleMouseMove] at hdd
    by_cases hdc : (s.isDrawing && s.currentPill.isSome) = true
    · rw [if_pos hdc] at hdd
      cases hcc : s.currentPill with
      | none =>
        rw [hcc] at hdd
        simp at hdd
      | some c0 =>
        rw [hcc] at hdd
        simp only [Option.map_some', Option.some.injEq] at hdd
        subst hdd
        exact ⟨le_max_right _ _, le_max_right _ _⟩
    · rw [if_neg hdc] at hdd
      exact h d hdd
  | up =>
    intro d hdd
    simp only [step, handleMouseUp] at hdd
    simp at hdd
  | click cx cy =>
    intro d hdd
    show MIN_SIZE ≤ d.width ∧ MIN_SIZE ≤ d.height
    by_cases hg : (s.isDrawing || s.isDragging || s.hasMoved) = true
    · rw [show step (Event.click cx cy) s = handleClick cx cy s from rfl,
        handleClick_gated cx cy s hg] at hdd
      exact h d hdd
    · rw [show step (Event.click cx cy) s = handleClick cx cy s from rfl,
        handleClick_not_gated cx cy s hg] at hdd
      exact h d hdd
  | resetMoved => exact h

/-- C7 (counterexample): the scenario "press at (100,100), a move to
(300,250), release" does not commit a 200 × 150 shape.  With a single move
event the threshold-crossing move does not resize the draft (the handler
still sees the pre-transition drawing flag), so the committed shape is the
initial 40 × 40 draft at (100,100). -/
theorem C7_counterexample :
    (runEvents [Event.downEmpty 100 100 "c", Event.move 300 250, Event.up]
        initState).pills.map (fun p => (p.x, p.y, p.width, p.height)) =
      [(100, 100, 40, 40)] ∧
    ¬ (runEvents [Event.downEmpty 100 100 "c", Event.move 300 250, Event.up]
        initState).pills.map (fun p => (p.x, p.y, p.width, p.height)) =
      [(100, 100, 200, 150)] := by
  constructor <;>
    norm_num [runEvents, List.foldl, step, handleMouseDown, handleMouseMove,
      handleMouseUp, handleClick, createPill, initState, MIN_SIZE, CORNER_RADIUS]

/-- C7 (amended): the draft is always at least `MIN_SIZE = 40` in each
dimension even when the gesture displacement is zero on one or both axes,
so every shape committed by a release is either a previously committed
shape or at least 40 × 40; and the scenario "press at (100,100), two move
events at (300,250), release" commits exactly one shape with origin
(100,100) and size (200,150) (the first move only crosses the threshold,
the second resizes the draft). -/
theorem C7_draw_commit (s : AppState) (e : Event) (hinv : draftInv s) :
    draftInv (step e s) ∧
    (∀ p ∈ (handleMouseUp s).pills, p ∈ s.pills ∨
      (MIN_SIZE ≤ p.width ∧ MIN_SIZE ≤ p.height)) ∧
    (runEvents [Event.downEmpty 100 100 "c", Event.move 300 250,
        Event.move 300 250, Event.up] initState).pills =
      [{ id := 0
         x := 100
         y := 100
         width := 200
         height := 150
         color := "c"
         borderRadius := some CORNER_RADIUS }] := by
  refine ⟨draftInv_step s e hinv, ?_, ?_⟩
  · intro p hp
    simp only [handleMouseUp] at hp
    cases hcc : s.currentPill with
    | none =>
      rw [hcc] at hp
      exact Or.inl hp
    | some c0 =>
      rw [hcc] at hp
      dsimp only at hp
      by_cases hdr : s.isDrawing = true
      · rw [if_pos hdr] at hp
        rw [List.mem_append] at hp
        rcases hp with hp | hp
        · exact Or.inl hp
        · simp only [List.mem_singleton] at hp
          rw [hp]
          exact Or.inr (hinv c0 hcc)
      · rw [if_neg hdr] at hp
        exact Or.inl hp
  · norm_num [runEvents, List.foldl, step, handleMouseDown, handleMouseMove,
      handleMouseUp, createPill, initState, MIN_SIZE, CORNER_RADIUS]

theorem C7_witness :
    draftInv initState ∧
    (draftInv (step Event.up initState) ∧
     (∀ p ∈ (handleMouseUp initState).pills, p ∈ initState.pills ∨
       (MIN_SIZE ≤ p.width ∧ MIN_SIZE ≤ p.height)) ∧
     (runEvents [Event.downEmpty 100 100 "c", Event.move 300 250,
         Event.move 300 250, Event.up] initState).pills =
       [{ id := 0
          x := 100
          y := 100
          width := 200
          height := 150
          color := "c"
          borderRadius := some CORNER_RADIUS }]) :=
  ⟨draftInv_none initState rfl,
   C7_draw_commit initState Event.up (draftInv_none initState rfl)⟩

/-! ### C10 -/

/-- C10: every press on empty surface allocates a fresh id at press time:
the counter advances by one and the draft carries the old counter value,
while the store is untouched; if the gesture ends without any move (from a
non-drawing state) the draft is discarded yet the id stays consumed; hence
committed ids can have gaps — the concrete three-gesture run (draw, 
abandoned press, draw) leaves the store with ids [0, 2]. -/
theorem C10_press_allocates (s : AppState) (x y : ℚ) (c : String)
    (hnd : s.isDrawing = false) :
    ((step (Event.downEmpty x y c) s).nextId = s.nextId + 1 ∧
     (step (Event.downEmpty x y c) s).pills = s.pills ∧
     (∃ d, (step (Event.downEmpty x y c) s).currentPill = some d ∧
       d.id = s.nextId)) ∧
    ((runEvents [Event.downEmpty x y c, Event.up] s).pills = s.pills ∧
     (runEvents [Event.downEmpty x y c, Event.up] s).nextId = s.nextId + 1) ∧
    (runEvents [Event.downEmpty 0 0 "a", Event.move 50 50, Event.move 50 50,
        Event.up, Event.downEmpty 200 200 "b", Event.up,
        Event.downEmpty 300 300 "c", Event.move 400 400, Event.move 400 400,
        Event.up] initState).pills.map Pill.id = [0, 2] := by
  refine ⟨⟨rfl, rfl, ⟨_, rfl, rfl⟩⟩, ?_, ?_⟩
  · show ((handleMouseUp (handleMouseDown x y c s)).pills = s.pills ∧
      (handleMouseUp (handleMouseDown x y c s)).nextId = s.nextId + 1)
    constructor
    · simp [handleMouseUp, handleMouseDown, createPill, hnd]
    · rfl
  · norm_num [runEvents, List.foldl, step, handleMouseDown, handleMouseMove,
      handleMouseUp, createPill, initState, MIN_SIZE, CORNER_RADIUS]

theorem C10_witness :
    initState.isDrawing = false ∧
    (((step (Event.downEmpty 5 5 "a") initState).nextId = initState.nextId + 1 ∧
      (step (Event.downEmpty 5 5 "a") initState).pills = initState.pills ∧
      (∃ d, (step (Event.downEmpty 5 5 "a") initState).currentPill = some d ∧
        d.id = initState.nextId)) ∧
     ((runEvents [Event.downEmpty 5 5 "a", Event.up] initState).pills =
        initState.pills ∧
      (runEvents [Event.downEmpty 5 5 "a", Event.up] initState).nextId =
        initState.nextId + 1) ∧
     (runEvents [Event.downEmpty 0 0 "a", Event.move 50 50, Event.move 50 50,
         Event.up, Event.downEmpty 200 200 "b", Event.up,
         Event.downEmpty 300 300 "c", Event.move 400 400, Event.move 400 400,
         Event.up] initState).pills.map Pill.id = [0, 2]) :=
  ⟨rfl, C10_press_allocates initState 5 5 "a" rfl⟩
